import Mathlib

/-!
Shallow embedding of the Student Finance Manager (`src/app.py`): the
Transaction/Student data model, the `FinanceManager` ledger operations,
and the JSON persistence codec (`save`/`load`), together with proofs of
the specification claims about them.

Modelling choices:
* Python dictionaries are insertion-ordered association lists
  (`List (String × Student)`), with Python's lookup / assignment / `pop`
  semantics (`dictGet`, `dictInsert`, `dictPop`).
* Python `float` amounts are exact rationals `ℚ`; Python's `round(x, 2)`
  is round-half-to-even of the exact value (`round2`).
* The side channel of `load` and `save` (the message printed to stdout)
  is returned explicitly as part of the result (`LoadMsg`).
* A file on disk is `FileState`: absent, present-but-not-JSON, or present
  and parsing to a `Json` document.  JSON values restrict Python's
  dynamically typed dicts to the kinds the program stores: strings for
  `ttype`/`description`/`date`/`student_id`/`name` and numbers for
  `amount`; `json.load` text parsing itself is not modelled.
-/

attribute [local semireducible] Rat.mul Rat.add Rat.sub Rat.inv Rat.ofScientific

namespace StudentFinance

/-- Round-half-to-even to the nearest integer, the semantics of Python's
builtin `round` applied to an exact value: `2 * (q - ⌊q⌋)` is compared with
`1` by comparing `2 * (q.num - ⌊q⌋ * q.den)` with `q.den`. -/
def rne (q : ℚ) : ℤ :=
  let f := q.floor
  let twice := 2 * (q.num - f * (q.den : ℤ))
  if twice < (q.den : ℤ) then f
  else if (q.den : ℤ) < twice then f + 1
  else if f % 2 = 0 then f else f + 1

/-- Python's `round(q, 2)`: round to two fractional decimal digits. -/
def round2 (q : ℚ) : ℚ := Rat.divInt (rne (q * 100)) 100

/-- The `Transaction` dataclass of `app.py`: one financial event.  `ttype`
is `"income"` or `"expense"` (the dataclass itself does not enforce this). -/
structure Transaction where
  ttype : String
  amount : ℚ
  description : String
  date : String
deriving DecidableEq, Repr

/-- The `Student` dataclass of `app.py`: identity plus the ordered list of
its transactions. -/
structure Student where
  student_id : String
  name : String
  transactions : List Transaction
deriving DecidableEq, Repr

/-- `Student.balance`: fold over the transactions, adding every amount whose
`ttype` is exactly `"income"` and subtracting every other amount. -/
def Student.balance (s : Student) : ℚ :=
  s.transactions.foldl (fun bal t => if t.ttype = "income" then bal + t.amount else bal - t.amount) 0

/-- The `FinanceManager` state: the Python dict `self.students`, an
insertion-ordered association list from `student_id` to `Student`. -/
structure FinanceManager where
  students : List (String × Student)
deriving DecidableEq, Repr

/-- Python dict lookup `d.get(k)` (also deciding `k in d`): the first entry
whose key is `k`. -/
def dictGet (d : List (String × Student)) (k : String) : Option Student :=
  (d.find? (fun p => p.1 == k)).map Prod.snd

/-- Python dict assignment `d[k] = v`: replace the value in place if the key
is present (keeping its position), otherwise append a new entry. -/
def dictInsert : List (String × Student) → String → Student → List (String × Student)
  | [], k, v => [(k, v)]
  | p :: rest, k, v => if p.1 == k then (k, v) :: rest else p :: dictInsert rest k v

/-- Python `d.pop(k, None)`: remove the binding of key `k`, if any. -/
def dictPop (d : List (String × Student)) (k : String) : List (String × Student) :=
  d.filter (fun p => !(p.1 == k))

/-- `FinanceManager.find_student`. -/
def find_student (fm : FinanceManager) (student_id : String) : Option Student :=
  dictGet fm.students student_id

/-- `FinanceManager.add_student`: fails (returning `false`, ledger unchanged)
if the id is already present, otherwise inserts a fresh student with an empty
transaction list. -/
def add_student (fm : FinanceManager) (student_id name : String) :
    FinanceManager × Bool :=
  if (dictGet fm.students student_id).isSome then (fm, false)
  else (⟨dictInsert fm.students student_id ⟨student_id, name, []⟩⟩, true)

/-- `FinanceManager.remove_student`: `pop` the id, reporting whether a
student existed. -/
def remove_student (fm : FinanceManager) (student_id : String) :
    FinanceManager × Bool :=
  match dictGet fm.students student_id with
  | none => (fm, false)
  | some _ => (⟨dictPop fm.students student_id⟩, true)

/-- `FinanceManager.record_transaction`.  The Python `date=None` default
(today's local date) is made explicit: `date` is the optional argument and
`today` stands for `datetime.now().strftime(DATE_FMT)`. -/
def record_transaction (fm : FinanceManager) (student_id ttype : String)
    (amount : ℚ) (description : String) (date : Option String) (today : String) :
    FinanceManager × Bool :=
  match find_student fm student_id with
  | none => (fm, false)
  | some student =>
    if ttype ≠ "income" ∧ ttype ≠ "expense" then (fm, false)
    else
      let tx : Transaction := ⟨ttype, round2 amount, description, date.getD today⟩
      let student' : Student := ⟨student.student_id, student.name, student.transactions ++ [tx]⟩
      (⟨dictInsert fm.students student_id student'⟩, true)

/-- The dict returned by `FinanceManager.student_report`. -/
structure Report where
  student_id : String
  name : String
  balance : ℚ
  transactions : List Transaction
deriving DecidableEq, Repr

/-- `FinanceManager.student_report`: `none` when the student is unknown,
otherwise the student's data with the balance rounded to 2 decimals. -/
def student_report (fm : FinanceManager) (student_id : String) : Option Report :=
  (find_student fm student_id).map fun s =>
    ⟨s.student_id, s.name, round2 s.balance, s.transactions⟩

/-- JSON documents, as produced by `json.load` on the files this program
reads and writes. -/
inductive Json where
  | null
  | bool (b : Bool)
  | num (q : ℚ)
  | str (s : String)
  | arr (items : List Json)
  | obj (fields : List (String × Json))

/-- Field lookup inside a JSON object (`none` on non-objects; callers model
Python's `.get`/`[]` behaviour on top of this). -/
def Json.get (j : Json) (k : String) : Option Json :=
  match j with
  | .obj fields => (fields.find? (fun p => p.1 == k)).map Prod.snd
  | _ => none

/-- `Transaction.to_dict` (via `dataclasses.asdict`). -/
def Transaction.to_dict (t : Transaction) : Json :=
  .obj [("ttype", .str t.ttype), ("amount", .num t.amount),
        ("description", .str t.description), ("date", .str t.date)]

/-- `Student.to_dict`. -/
def Student.to_dict (s : Student) : Json :=
  .obj [("student_id", .str s.student_id), ("name", .str s.name),
        ("transactions", .arr (s.transactions.map Transaction.to_dict))]

/-- `FinanceManager.save`: the JSON document written to the file (the write
itself always overwrites the target wholesale and does not change the
in-memory state). -/
def save (fm : FinanceManager) : Json :=
  .obj [("students", .arr (fm.students.map (fun p => p.2.to_dict)))]

/-- `Transaction(**t)` applied to a parsed JSON value `t`: succeeds exactly
when `t` is an object whose keys are exactly the four `Transaction` fields
(any other keyword set raises `TypeError`); the values must have the kinds
the program ever writes (see the file header). -/
def parseTransaction (j : Json) : Option Transaction :=
  match j with
  | .obj fields =>
    match j.get "ttype", j.get "amount", j.get "description", j.get "date" with
    | some (.str ty), some (.num a), some (.str de), some (.str da) =>
      if fields.length = 4 then some ⟨ty, a, de, da⟩ else none
    | _, _, _, _ => none
  | _ => none

/-- The list comprehension `[Transaction(**t) for t in ...]`: the whole list
or a raised exception, with no partial value escaping. -/
def parseTransactions : List Json → Option (List Transaction)
  | [] => some []
  | j :: rest =>
    match parseTransaction j, parseTransactions rest with
    | some t, some ts => some (t :: ts)
    | _, _ => none

/-- The `for s in data.get("students", [])` loop body of
`FinanceManager.load`, starting from the partially rebuilt dict `acc`
(initially `{}`).  On an exception the loop stops and the partially rebuilt
dict is what `self.students` is left holding (`false` = exception). -/
def loadStudents : List Json → List (String × Student) →
    List (String × Student) × Bool
  | [], acc => (acc, true)
  | s :: rest, acc =>
    match s with
    | .obj _ =>
      match (s.get "transactions").getD (.arr []) with
      | .arr txItems =>
        match parseTransactions txItems with
        | none => (acc, false)
        | some txs =>
          match s.get "student_id", s.get "name" with
          | some (.str sid), some (.str nm) =>
            loadStudents rest (dictInsert acc sid ⟨sid, nm, txs⟩)
          | _, _ => (acc, false)
      | _ => (acc, false)
    | _ => (acc, false)

/-- What `load` prints: one of `"Loaded data from ..."`,
`"No data file found at ... Starting fresh."`, `"Failed to load data: ..."`. -/
inductive LoadMsg where
  | loaded
  | notFound
  | failed
deriving DecidableEq, Repr

/-- The file `load` sees: absent, present but not valid JSON (`json.load`
raises before any state is touched), or present and parsing to `j`. -/
inductive FileState where
  | absent
  | invalid
  | parsed (j : Json)

/-- `FinanceManager.load`: returns the new in-memory state, the boolean
result, and the printed message.  Mirrors the source order: `json.load`
runs inside the `try` before `self.students = {}`, so a parse error leaves
the old state intact, while any exception after that point leaves the
cleared / partially rebuilt dict behind. -/
def load (fm : FinanceManager) (file : FileState) : FinanceManager × Bool × LoadMsg :=
  match file with
  | .absent => (fm, false, .notFound)
  | .invalid => (fm, false, .failed)
  | .parsed j =>
    match j with
    | .obj _ =>
      match (j.get "students").getD (.arr []) with
      | .arr ss =>
        match loadStudents ss [] with
        | (d, true) => (⟨d⟩, true, .loaded)
        | (d, false) => (⟨d⟩, false, .failed)
      | _ => (⟨[]⟩, false, .failed)
    | _ => (⟨[]⟩, false, .failed)

/-- Key/value coherence invariant of the students dict: every key equals the
`student_id` of the student it maps to. -/
def KeysMatch (fm : FinanceManager) : Prop :=
  ∀ p ∈ fm.students, p.1 = p.2.student_id

/-- Ledger states reachable from the initial empty `FinanceManager` by the
public operations (`save` does not change the in-memory state). -/
inductive Reachable : FinanceManager → Prop where
  | init : Reachable ⟨[]⟩
  | add (sid nm : String) {fm : FinanceManager} :
      Reachable fm → Reachable (add_student fm sid nm).1
  | remove (sid : String) {fm : FinanceManager} :
      Reachable fm → Reachable (remove_student fm sid).1
  | record (sid ty : String) (a : ℚ) (de : String) (dt : Option String)
      (today : String) {fm : FinanceManager} :
      Reachable fm → Reachable (record_transaction fm sid ty a de dt today).1
  | loadStep (file : FileState) {fm : FinanceManager} :
      Reachable fm → Reachable (load fm file).1

/-- One invocation of `record_transaction` on a fixed student: the arguments
other than the student id. -/
structure Call where
  ttype : String
  amount : ℚ
  description : String
  date : Option String
  today : String

/-- Apply a sequence of `record_transaction` calls to one student, also
reporting whether every call returned `true`. -/
def applyCalls (fm : FinanceManager) (student_id : String) :
    List Call → FinanceManager × Bool
  | [] => (fm, true)
  | c :: rest =>
    let r := record_transaction fm student_id c.ttype c.amount c.description c.date c.today
    let rest' := applyCalls r.1 student_id rest
    (rest'.1, r.2 && rest'.2)

/-- The transaction a successful `record_transaction` call stores. -/
def txOfCall (c : Call) : Transaction :=
  ⟨c.ttype, round2 c.amount, c.description, c.date.getD c.today⟩

end StudentFinance

namespace StudentFinance

theorem dictGet_eq_none_iff (d : List (String × Student)) (k : String) :
    dictGet d k = none ↔ d.any (fun p => p.1 == k) = false := by
  simp [dictGet, List.find?_eq_none, List.any_eq_true]

theorem dictInsert_of_absent (d : List (String × Student)) (k : String) (v : Student)
    (h : dictGet d k = none) : dictInsert d k v = d ++ [(k, v)] := by
  induction d with
  | nil => rfl
  | cons hd tl ih =>
    simp only [dictGet, List.find?] at h
    cases hbeq : hd.1 == k with
    | true => rw [hbeq] at h; simp at h
    | false =>
      rw [hbeq] at h
      simp only [dictInsert, hbeq, Bool.false_eq_true, if_false, List.cons_append,
        List.cons.injEq, true_and]
      exact ih (by simpa [dictGet] using h)

theorem dictGet_dictPop (d : List (String × Student)) (k : String) :
    dictGet (dictPop d k) k = none := by
  rw [dictGet_eq_none_iff]
  simp only [Bool.eq_false_iff, ne_eq, List.any_eq_true, not_exists, not_and]
  rintro p hp
  rcases List.mem_filter.1 hp with ⟨-, hk⟩
  simpa using hk

theorem dictGet_dictInsert (d : List (String × Student)) (k : String) (v : Student) :
    dictGet (dictInsert d k v) k = some v := by
  induction d with
  | nil => simp [dictInsert, dictGet, List.find?]
  | cons hd tl ih =>
    cases hbeq : hd.1 == k with
    | true => simp [dictInsert, hbeq, dictGet, List.find?]
    | false =>
      simp only [dictInsert, hbeq, Bool.false_eq_true, if_neg]
      simpa [dictGet, List.find?, hbeq] using ih

theorem dictGet_none_not_mem {d : List (String × Student)} {k : String}
    (h : dictGet d k = none) : ∀ p ∈ d, p.1 ≠ k := by
  intro p hp hpk
  rw [dictGet_eq_none_iff] at h
  have : d.any (fun q => q.1 == k) = true := List.any_eq_true.2 ⟨p, hp, by simp [hpk]⟩
  rw [h] at this
  exact absurd this (by simp)

theorem dictGet_some_mem {d : List (String × Student)} {k : String} {v : Student}
    (h : dictGet d k = some v) : (k, v) ∈ d := by
  unfold dictGet at h
  cases hfind : d.find? (fun p => p.1 == k) with
  | none => rw [hfind] at h; simp at h
  | some p =>
    rw [hfind] at h
    have hp : p ∈ d := List.mem_of_find?_eq_some hfind
    have hk : p.1 = k := by simpa using List.find?_some hfind
    have hv : p.2 = v := by simpa using h
    rw [← hk, ← hv]
    exact hp

/-- C1 fails on the code: `load` on a well-formed JSON document whose single
student entry is missing the required `student_id` field returns `false`, as
the claim says, but it has already executed `self.students = {}`, so the
prior in-memory state (here one student `S1`) is destroyed rather than left
exactly as it was. -/
theorem load_malformed_clears_state :
    load ⟨[("S1", ⟨"S1", "Alice", []⟩)]⟩
        (.parsed (.obj [("students", .arr [.obj [("name", .str "Bob")]])])) =
      (⟨[]⟩, false, .failed) ∧
    (⟨[]⟩ : FinanceManager) ≠ ⟨[("S1", ⟨"S1", "Alice", []⟩)]⟩ :=
  ⟨rfl, by decide⟩

/-- C3: loading from an absent path leaves the ledger unchanged and returns
`false` with the "no data file found" message, while an unparseable file
returns `false` with the "failed to load" message; the two printed messages
are the distinguishable component of the result (the boolean alone is
`false` in both cases). -/
theorem load_absent_distinct_result (fm : FinanceManager) :
    load fm .absent = (fm, false, .notFound) ∧
    load fm .invalid = (fm, false, .failed) ∧
    LoadMsg.notFound ≠ LoadMsg.failed :=
  ⟨rfl, rfl, by decide⟩

/-- C9: a valid JSON object without a `"students"` key loads successfully,
replacing the in-memory state with an empty ledger, and a student entry
without a `"transactions"` key loads as a student with an empty transaction
list; neither missing list key is treated as a malformed file. -/
theorem load_missing_keys_default (fm : FinanceManager) (sid nm : String) :
    load fm (.parsed (.obj [])) = (⟨[]⟩, true, .loaded) ∧
    load fm (.parsed (.obj [("students", .arr
        [.obj [("student_id", .str sid), ("name", .str nm)]])])) =
      (⟨[(sid, ⟨sid, nm, []⟩)]⟩, true, .loaded) :=
  ⟨rfl, rfl⟩

/-- C6: `add_student` on a present id returns `false` and leaves the ledger
(including the existing student's name and transactions) unchanged; on a
fresh id it appends a student with that id, that name and no transactions,
and returns `true`. -/
theorem add_student_spec (fm : FinanceManager) (sid nm : String) :
    ((find_student fm sid).isSome = true → add_student fm sid nm = (fm, false)) ∧
    (find_student fm sid = none →
      add_student fm sid nm = (⟨fm.students ++ [(sid, ⟨sid, nm, []⟩)]⟩, true)) := by
  unfold add_student find_student
  constructor
  · intro h
    rw [if_pos h]
  · intro h
    rw [if_neg (by simp [h]), dictInsert_of_absent _ _ _ h]

theorem add_student_spec_witness :
    add_student ⟨[("S1", ⟨"S1", "Alice", []⟩)]⟩ "S1" "Bob" =
      (⟨[("S1", ⟨"S1", "Alice", []⟩)]⟩, false) ∧
    add_student ⟨[]⟩ "S1" "Alice" = (⟨[("S1", ⟨"S1", "Alice", []⟩)]⟩, true) :=
  ⟨(add_student_spec ⟨[("S1", ⟨"S1", "Alice", []⟩)]⟩ "S1" "Bob").1 (by decide),
   by simpa using (add_student_spec ⟨[]⟩ "S1" "Alice").2 (by decide)⟩

/-- C7: `remove_student` returns `true` exactly when the student existed;
afterwards `find_student` on that id reports not-found, and no entry under
that id (hence none of the removed student's transactions) remains in the
ledger. -/
theorem remove_student_spec (fm : FinanceManager) (sid : String) :
    ((remove_student fm sid).2 = true ↔ (find_student fm sid).isSome = true) ∧
    find_student (remove_student fm sid).1 sid = none ∧
    ∀ p ∈ (remove_student fm sid).1.students, p.1 ≠ sid := by
  unfold remove_student find_student
  cases hget : dictGet fm.students sid with
  | none =>
    exact ⟨by simp, hget, dictGet_none_not_mem hget⟩
  | some s =>
    refine ⟨by simp, dictGet_dictPop fm.students sid, ?_⟩
    intro p hp
    have hk := (List.mem_filter.1 hp).2
    simpa using hk

theorem remove_student_spec_witness :
    (remove_student ⟨[("S1", ⟨"S1", "Alice", []⟩)]⟩ "S1").2 = true ∧
    find_student (remove_student ⟨[("S1", ⟨"S1", "Alice", []⟩)]⟩ "S1").1 "S1" = none ∧
    (remove_student ⟨[]⟩ "S1").2 = false :=
  ⟨(remove_student_spec ⟨[("S1", ⟨"S1", "Alice", []⟩)]⟩ "S1").1.mpr (by decide),
   (remove_student_spec ⟨[("S1", ⟨"S1", "Alice", []⟩)]⟩ "S1").2.1,
   by
    have h := (remove_student_spec ⟨[]⟩ "S1").1
    cases hr : (remove_student (⟨[]⟩ : FinanceManager) "S1").2 with
    | false => rfl
    | true => exact absurd (h.mp hr) (by decide)⟩

/-- C5: `record_transaction` returns `false` with the ledger unchanged (no
student created) on an unknown id or on a type other than income/expense;
on success it appends exactly one transaction, whose stored amount is the
argument rounded once at write time, to the end of that student's list, and
returns `true`. -/
theorem record_transaction_spec (fm : FinanceManager) (sid ty : String) (a : ℚ)
    (de : String) (dt : Option String) (today : String) :
    (find_student fm sid = none →
      record_transaction fm sid ty a de dt today = (fm, false)) ∧
    (ty ≠ "income" ∧ ty ≠ "expense" →
      record_transaction fm sid ty a de dt today = (fm, false)) ∧
    (∀ s, find_student fm sid = some s → (ty = "income" ∨ ty = "expense") →
      record_transaction fm sid ty a de dt today =
        (⟨dictInsert fm.students sid
            ⟨s.student_id, s.name,
             s.transactions ++ [⟨ty, round2 a, de, dt.getD today⟩]⟩⟩, true)) := by
  refine ⟨?_, ?_, ?_⟩
  · intro h
    unfold record_transaction
    rw [h]
  · intro h
    unfold record_transaction
    cases hget : find_student fm sid with
    | none => rfl
    | some s => simp [h]
  · intro s hs hty
    unfold record_transaction
    rw [hs]
    have hcond : ¬(ty ≠ "income" ∧ ty ≠ "expense") := by tauto
    simp [hcond]

theorem record_transaction_spec_witness :
    record_transaction ⟨[]⟩ "S9" "income" 5 "" (some "2024-01-10") "2024-01-10" =
      (⟨[]⟩, false) ∧
    record_transaction ⟨[("S1", ⟨"S1", "Alice", []⟩)]⟩ "S1" "gift" 5 ""
      (some "2024-01-10") "2024-01-10" = (⟨[("S1", ⟨"S1", "Alice", []⟩)]⟩, false) ∧
    record_transaction ⟨[("S1", ⟨"S1", "Alice", []⟩)]⟩ "S1" "income" 0.004 "b"
      (some "2024-01-10") "2024-01-11" =
      (⟨[("S1", ⟨"S1", "Alice", [⟨"income", 0, "b", "2024-01-10"⟩]⟩)]⟩, true) :=
  ⟨(record_transaction_spec ⟨[]⟩ "S9" "income" 5 "" (some "2024-01-10") "2024-01-10").1 rfl,
   (record_transaction_spec ⟨[("S1", ⟨"S1", "Alice", []⟩)]⟩ "S1" "gift" 5 ""
      (some "2024-01-10") "2024-01-10").2.1 (by decide),
   by
    rw [(record_transaction_spec ⟨[("S1", ⟨"S1", "Alice", []⟩)]⟩ "S1" "income" 0.004 "b"
      (some "2024-01-10") "2024-01-11").2.2 ⟨"S1", "Alice", []⟩ rfl (Or.inl rfl)]
    decide⟩

theorem balance_foldl (txs : List Transaction) (b0 : ℚ) :
    txs.foldl (fun bal t => if t.ttype = "income" then bal + t.amount else bal - t.amount) b0 =
      b0 + (((txs.filter (fun t => t.ttype == "income")).map Transaction.amount).sum -
            ((txs.filter (fun t => !(t.ttype == "income"))).map Transaction.amount).sum) := by
  induction txs generalizing b0 with
  | nil => simp
  | cons t rest ih =>
    by_cases h : t.ttype = "income"
    · simp only [List.foldl_cons, if_pos h, List.filter_cons, h, beq_self_eq_true,
        Bool.not_true, if_true, List.map_cons, List.sum_cons, ih (b0 + t.amount)]
      simp
      ring
    · have hbeq : (t.ttype == "income") = false := by simpa using h
      simp only [List.foldl_cons, if_neg h, List.filter_cons, hbeq, Bool.not_false,
        List.map_cons, List.sum_cons, ih (b0 - t.amount)]
      simp
      ring

/-- C10: `balance` adds exactly the amounts whose `ttype` is the string
`"income"` and subtracts every other amount, skipping nothing and raising
nothing; in particular a transaction whose `ttype` is `"refund"` (which
`load` accepts unvalidated) is subtracted like an expense. -/
theorem balance_income_classification (s : Student) :
    s.balance =
      ((s.transactions.filter (fun t => t.ttype == "income")).map Transaction.amount).sum -
      ((s.transactions.filter (fun t => !(t.ttype == "income"))).map Transaction.amount).sum ∧
    (load ⟨[]⟩ (.parsed (.obj [("students", .arr [.obj
        [("student_id", .str "S1"), ("name", .str "Bob"),
         ("transactions", .arr [.obj [("ttype", .str "refund"), ("amount", .num 7),
           ("description", .str ""), ("date", .str "2024-01-02")]])]])]))).2.1 = true ∧
    (student_report (load ⟨[]⟩ (.parsed (.obj [("students", .arr [.obj
        [("student_id", .str "S1"), ("name", .str "Bob"),
         ("transactions", .arr [.obj [("ttype", .str "refund"), ("amount", .num 7),
           ("description", .str ""), ("date", .str "2024-01-02")]])]])]))).1 "S1").map
      Report.balance = some (-7) := by
  refine ⟨?_, by decide, by decide⟩
  simpa [Student.balance] using balance_foldl s.transactions 0

/-- C4 fails on the code: `record_transaction` rounds each amount at write
time, so after two income recordings of 0.004 the stored amounts are both
0.00 and the reported balance is 0.00, while round(0.004 + 0.004, 2) = 0.01
as the claim would require. -/
theorem balance_neq_rounded_raw_sum :
    (record_transaction ⟨[("S1", ⟨"S1", "Alice", []⟩)]⟩ "S1" "income" 0.004 ""
        (some "2024-01-10") "t").2 = true ∧
    (record_transaction (record_transaction ⟨[("S1", ⟨"S1", "Alice", []⟩)]⟩ "S1" "income"
        0.004 "" (some "2024-01-10") "t").1 "S1" "income" 0.004 ""
        (some "2024-01-11") "t").2 = true ∧
    (student_report (record_transaction (record_transaction ⟨[("S1", ⟨"S1", "Alice", []⟩)]⟩
        "S1" "income" 0.004 "" (some "2024-01-10") "t").1 "S1" "income" 0.004 ""
        (some "2024-01-11") "t").1 "S1").map Report.balance = some 0 ∧
    round2 (0.004 + 0.004) = 0.01 ∧
    (0 : ℚ) ≠ 0.01 := by decide

theorem record_transaction_success (fm : FinanceManager) (sid : String) (c : Call)
    (s : Student) (hs : find_student fm sid = some s)
    (hty : c.ttype = "income" ∨ c.ttype = "expense") :
    (record_transaction fm sid c.ttype c.amount c.description c.date c.today).2 = true ∧
    find_student (record_transaction fm sid c.ttype c.amount c.description c.date c.today).1 sid =
      some ⟨s.student_id, s.name, s.transactions ++ [txOfCall c]⟩ := by
  have heq : record_transaction fm sid c.ttype c.amount c.description c.date c.today =
      (⟨dictInsert fm.students sid
          ⟨s.student_id, s.name, s.transactions ++ [txOfCall c]⟩⟩, true) := by
    unfold record_transaction
    rw [hs]
    have hcond : ¬(c.ttype ≠ "income" ∧ c.ttype ≠ "expense") := by tauto
    simp [hcond, txOfCall]
  rw [heq]
  exact ⟨rfl, by simpa [find_student] using dictGet_dictInsert fm.students sid _⟩

theorem applyCalls_spec (calls : List Call) (fm : FinanceManager) (sid : String)
    (s : Student) (hs : find_student fm sid = some s)
    (hty : ∀ c ∈ calls, c.ttype = "income" ∨ c.ttype = "expense") :
    (applyCalls fm sid calls).2 = true ∧
    find_student (applyCalls fm sid calls).1 sid =
      some ⟨s.student_id, s.name, s.transactions ++ calls.map txOfCall⟩ := by
  induction calls generalizing fm s with
  | nil => exact ⟨rfl, by simpa using hs⟩
  | cons c rest ih =>
    obtain ⟨hr2, hrfind⟩ :=
      record_transaction_success fm sid c s hs (hty c (List.mem_cons_self c rest))
    obtain ⟨ih2, ihfind⟩ :=
      ih (record_transaction fm sid c.ttype c.amount c.description c.date c.today).1
        ⟨s.student_id, s.name, s.transactions ++ [txOfCall c]⟩ hrfind
        (fun c' hc' => hty c' (List.mem_cons_of_mem c hc'))
    constructor
    · show ((record_transaction fm sid c.ttype c.amount c.description c.date c.today).2 &&
        (applyCalls (record_transaction fm sid c.ttype c.amount c.description c.date
          c.today).1 sid rest).2) = true
      rw [hr2, ih2]
      rfl
    · show find_student (applyCalls (record_transaction fm sid c.ttype c.amount
        c.description c.date c.today).1 sid rest).1 sid = _
      rw [ihfind]
      simp [List.append_assoc]

/-- C4 as amended: for every sequence of successful `record_transaction`
calls on one student starting from an empty transaction list, the balance
reported by `student_report` equals round2 of (the sum of the write-time
rounded income amounts minus the sum of the write-time rounded expense
amounts) — i.e. each amount is rounded to 2 decimals when stored, and the
raw amounts enter the balance only through those rounded values. -/
theorem balance_of_recorded_calls (fm : FinanceManager) (sid : String) (s : Student)
    (calls : List Call)
    (hs : find_student fm sid = some s) (hempty : s.transactions = [])
    (hty : ∀ c ∈ calls, c.ttype = "income" ∨ c.ttype = "expense") :
    (applyCalls fm sid calls).2 = true ∧
    (student_report (applyCalls fm sid calls).1 sid).map Report.balance =
      some (round2
        (((calls.filter (fun c => c.ttype == "income")).map (fun c => round2 c.amount)).sum -
         ((calls.filter (fun c => c.ttype == "expense")).map (fun c => round2 c.amount)).sum)) := by
  obtain ⟨h2, hfind⟩ := applyCalls_spec calls fm sid s hs hty
  refine ⟨h2, ?_⟩
  have hrep : (student_report (applyCalls fm sid calls).1 sid).map Report.balance =
      some (round2 (Student.balance
        ⟨s.student_id, s.name, s.transactions ++ calls.map txOfCall⟩)) := by
    unfold student_report
    rw [hfind]
    rfl
  rw [hrep, hempty]
  have hfe : calls.filter (fun c => !(c.ttype == "income")) =
      calls.filter (fun c => c.ttype == "expense") := by
    apply List.filter_congr
    intro c hc
    rcases hty c hc with h | h <;> simp [h]
  have hbal : Student.balance ⟨s.student_id, s.name, [] ++ calls.map txOfCall⟩ =
      ((calls.filter (fun c => c.ttype == "income")).map (fun c => round2 c.amount)).sum -
      ((calls.filter (fun c => c.ttype == "expense")).map (fun c => round2 c.amount)).sum := by
    have hb : Student.balance ⟨s.student_id, s.name, [] ++ calls.map txOfCall⟩ =
        (calls.map txOfCall).foldl
          (fun bal t => if t.ttype = "income" then bal + t.amount else bal - t.amount) 0 := rfl
    rw [hb, balance_foldl, List.filter_map, List.filter_map, List.map_map, List.map_map]
    have h1 : ((fun t => t.ttype == "income") ∘ txOfCall) = fun c => c.ttype == "income" := rfl
    have h2 : ((fun t => !(t.ttype == "income")) ∘ txOfCall) =
        fun c => !(c.ttype == "income") := rfl
    have h3 : (Transaction.amount ∘ txOfCall) = fun c => round2 c.amount := rfl
    rw [h1, h2, h3, hfe]
    ring
  rw [hbal]

theorem balance_of_recorded_calls_witness :
    (applyCalls ⟨[("S1", ⟨"S1", "Alice", []⟩)]⟩ "S1"
        [⟨"income", 0.004, "", some "2024-01-10", "t"⟩,
         ⟨"expense", 2, "", some "2024-01-11", "t"⟩]).2 = true ∧
    (student_report (applyCalls ⟨[("S1", ⟨"S1", "Alice", []⟩)]⟩ "S1"
        [⟨"income", 0.004, "", some "2024-01-10", "t"⟩,
         ⟨"expense", 2, "", some "2024-01-11", "t"⟩]).1 "S1").map Report.balance =
      some (-2) := by
  obtain ⟨h1, h2⟩ := balance_of_recorded_calls ⟨[("S1", ⟨"S1", "Alice", []⟩)]⟩ "S1"
    ⟨"S1", "Alice", []⟩
    [⟨"income", 0.004, "", some "2024-01-10", "t"⟩,
     ⟨"expense", 2, "", some "2024-01-11", "t"⟩] rfl rfl (by decide)
  exact ⟨h1, by rw [h2]; decide⟩

theorem parseTransaction_to_dict (t : Transaction) :
    parseTransaction t.to_dict = some t := rfl

theorem parseTransactions_map (l : List Transaction) :
    parseTransactions (l.map Transaction.to_dict) = some l := by
  induction l with
  | nil => rfl
  | cons t rest ih =>
    simp only [List.map_cons, parseTransactions, parseTransaction_to_dict, ih]

theorem dictGet_eq_none_of_not_key {d : List (String × Student)} {k : String}
    (h : k ∉ d.map Prod.fst) : dictGet d k = none := by
  rw [dictGet_eq_none_iff]
  simp only [Bool.eq_false_iff, ne_eq, List.any_eq_true, not_exists, not_and]
  intro p hp hpk
  exact h (List.mem_map.2 ⟨p, hp, by simpa using hpk⟩)

theorem loadStudents_of_saved (l : List (String × Student)) :
    ∀ acc : List (String × Student), (∀ p ∈ l, p.1 = p.2.student_id) →
    (acc.map Prod.fst ++ l.map Prod.fst).Nodup →
    loadStudents (l.map (fun p => p.2.to_dict)) acc = (acc ++ l, true) := by
  induction l with
  | nil => intro acc _ _; simp [loadStudents]
  | cons hd tl ih =>
    intro acc hk hnd
    obtain ⟨k, s⟩ := hd
    have hks : k = s.student_id := hk (k, s) (by simp)
    have hnotin : s.student_id ∉ acc.map Prod.fst := by
      subst hks
      intro hmem
      have hdisj := List.disjoint_of_nodup_append hnd
      exact hdisj hmem (by simp)
    have e1 : ("student_id" == "transactions") = false := by decide
    have e2 : ("name" == "transactions") = false := by decide
    have e3 : ("transactions" == "transactions") = true := by decide
    have e4 : ("student_id" == "student_id") = true := by decide
    have e5 : ("student_id" == "name") = false := by decide
    have e6 : ("name" == "name") = true := by decide
    have hstep : loadStudents (s.to_dict :: tl.map (fun p => p.2.to_dict)) acc =
        loadStudents (tl.map (fun p => p.2.to_dict)) (dictInsert acc s.student_id s) := by
      simp only [loadStudents, Student.to_dict, Json.get, List.find?, Option.getD,
        parseTransactions_map, e1, e2, e3, e4, e5, e6, Option.map_some']
    have hins : dictInsert acc s.student_id s = acc ++ [(s.student_id, s)] :=
      dictInsert_of_absent acc s.student_id s (dictGet_eq_none_of_not_key hnotin)
    have hrec := ih (acc ++ [(k, s)]) (fun p hp => hk p (by simp [hp]))
      (by simpa [List.append_assoc] using hnd)
    calc loadStudents (((k, s) :: tl).map (fun p => p.2.to_dict)) acc
        = loadStudents (tl.map (fun p => p.2.to_dict)) (acc ++ [(k, s)]) := by
          rw [List.map_cons, hstep, hins, hks]
      _ = ((acc ++ [(k, s)]) ++ tl, true) := hrec
      _ = (acc ++ (k, s) :: tl, true) := by simp

/-- C2: saving any well-formed ledger (unique keys, each equal to its
student's id — the data-model invariants) and loading the saved document
into a fresh ledger reproduces the ledger exactly: same students with the
same ids and names, identical transaction lists in the same order with the
same amounts, dates and descriptions, and hence identical balances. -/
theorem save_load_roundtrip (fm : FinanceManager)
    (hk : KeysMatch fm) (hnd : (fm.students.map Prod.fst).Nodup) :
    load ⟨[]⟩ (.parsed (save fm)) = (fm, true, .loaded) := by
  have hload := loadStudents_of_saved fm.students [] hk (by simpa using hnd)
  have e0 : ("students" == "students") = true := by decide
  simp only [load, save, Json.get, List.find?, Option.getD, e0, Option.map_some']
  rw [hload]
  simp

theorem save_load_roundtrip_witness :
    KeysMatch ⟨[("S1", ⟨"S1", "Alice", [⟨"income", 1500.51, "", "2024-01-10"⟩,
        ⟨"expense", 200, "Books", "2024-01-15"⟩]⟩), ("S2", ⟨"S2", "Bob", []⟩)]⟩ ∧
    load ⟨[]⟩ (.parsed (save ⟨[("S1", ⟨"S1", "Alice", [⟨"income", 1500.51, "", "2024-01-10"⟩,
        ⟨"expense", 200, "Books", "2024-01-15"⟩]⟩), ("S2", ⟨"S2", "Bob", []⟩)]⟩)) =
      (⟨[("S1", ⟨"S1", "Alice", [⟨"income", 1500.51, "", "2024-01-10"⟩,
        ⟨"expense", 200, "Books", "2024-01-15"⟩]⟩), ("S2", ⟨"S2", "Bob", []⟩)]⟩, true, .loaded) :=
  ⟨by unfold KeysMatch; decide,
   save_load_roundtrip _ (by unfold KeysMatch; decide) (by decide)⟩

theorem keysMatch_dictInsert (d : List (String × Student)) (k : String) (v : Student)
    (hd : ∀ p ∈ d, p.1 = p.2.student_id) (hv : k = v.student_id) :
    ∀ p ∈ dictInsert d k v, p.1 = p.2.student_id := by
  induction d with
  | nil =>
    intro p hp
    simp only [dictInsert, List.mem_singleton] at hp
    rw [hp]
    exact hv
  | cons q tl ih =>
    intro p hp
    cases hq : q.1 == k with
    | true =>
      rw [dictInsert, if_pos (by rw [hq])] at hp
      rcases List.mem_cons.1 hp with rfl | hmem
      · exact hv
      · exact hd p (List.mem_cons_of_mem q hmem)
    | false =>
      rw [dictInsert, if_neg (by rw [hq]; simp)] at hp
      rcases List.mem_cons.1 hp with rfl | hmem
      · exact hd p (List.mem_cons_self p tl)
      · exact ih (fun p' hp' => hd p' (List.mem_cons_of_mem q hp')) p hmem

theorem keysMatch_add (fm : FinanceManager) (h : KeysMatch fm) (sid nm : String) :
    KeysMatch (add_student fm sid nm).1 := by
  unfold add_student
  split
  · exact h
  · intro p hp
    refine keysMatch_dictInsert _ _ _ h ?_ p hp
    rfl

theorem keysMatch_remove (fm : FinanceManager) (h : KeysMatch fm) (sid : String) :
    KeysMatch (remove_student fm sid).1 := by
  unfold remove_student
  cases hget : dictGet fm.students sid with
  | none => exact h
  | some s => exact fun p hp => h p (List.mem_of_mem_filter hp)

theorem keysMatch_record (fm : FinanceManager) (h : KeysMatch fm) (sid ty : String)
    (a : ℚ) (de : String) (dt : Option String) (today : String) :
    KeysMatch (record_transaction fm sid ty a de dt today).1 := by
  unfold record_transaction
  cases hget : find_student fm sid with
  | none => exact h
  | some s =>
    dsimp only
    split
    · exact h
    · intro p hp
      refine keysMatch_dictInsert _ _ _ h ?_ p hp
      exact h (sid, s) (dictGet_some_mem hget)

theorem keysMatch_loadStudents (ss : List Json) :
    ∀ acc : List (String × Student), (∀ p ∈ acc, p.1 = p.2.student_id) →
    ∀ p ∈ (loadStudents ss acc).1, p.1 = p.2.student_id := by
  induction ss with
  | nil => intro acc hacc; simpa [loadStudents] using hacc
  | cons s rest ih =>
    intro acc hacc
    unfold loadStudents
    repeat' split
    all_goals
      first
        | exact hacc
        | exact ih _ (keysMatch_dictInsert _ _ _ hacc rfl)

theorem keysMatch_load (fm : FinanceManager) (h : KeysMatch fm) (file : FileState) :
    KeysMatch (load fm file).1 := by
  unfold load
  cases file with
  | absent => exact h
  | invalid => exact h
  | parsed j =>
    cases j with
    | obj fields =>
      dsimp only
      cases hgd : ((Json.obj fields).get "students").getD (Json.arr []) with
      | arr ss =>
        dsimp only
        cases hls : loadStudents ss [] with
        | mk d ok =>
          cases ok with
          | true =>
            intro p hp
            have hp' : p ∈ (loadStudents ss []).1 := by rw [hls]; exact hp
            exact keysMatch_loadStudents ss [] (by simp) p hp'
          | false =>
            intro p hp
            have hp' : p ∈ (loadStudents ss []).1 := by rw [hls]; exact hp
            exact keysMatch_loadStudents ss [] (by simp) p hp'
      | null => exact fun p hp => absurd hp (List.not_mem_nil p)
      | bool b => exact fun p hp => absurd hp (List.not_mem_nil p)
      | num q => exact fun p hp => absurd hp (List.not_mem_nil p)
      | str st => exact fun p hp => absurd hp (List.not_mem_nil p)
      | obj fs => exact fun p hp => absurd hp (List.not_mem_nil p)
    | null => exact fun p hp => absurd hp (List.not_mem_nil p)
    | bool b => exact fun p hp => absurd hp (List.not_mem_nil p)
    | num q => exact fun p hp => absurd hp (List.not_mem_nil p)
    | str st => exact fun p hp => absurd hp (List.not_mem_nil p)
    | arr items => exact fun p hp => absurd hp (List.not_mem_nil p)

/-- C8: in every ledger state reachable from the initial empty state by the
public operations (including `load` of arbitrary files), every key of the
students mapping equals the `student_id` of the student it maps to. -/
theorem reachable_keysMatch (fm : FinanceManager) (h : Reachable fm) : KeysMatch fm := by
  induction h with
  | init => intro p hp; simp at hp
  | add sid nm hr ih => exact keysMatch_add _ ih sid nm
  | remove sid hr ih => exact keysMatch_remove _ ih sid
  | record sid ty a de dt today hr ih => exact keysMatch_record _ ih sid ty a de dt today
  | loadStep file hr ih => exact keysMatch_load _ ih file

theorem reachable_keysMatch_witness :
    KeysMatch (record_transaction (add_student ⟨[]⟩ "S1" "Alice").1 "S1" "income" 3 ""
      (some "2024-01-10") "2024-01-10").1 :=
  reachable_keysMatch _
    (Reachable.record "S1" "income" 3 "" (some "2024-01-10") "2024-01-10"
      (Reachable.add "S1" "Alice" Reachable.init))

end StudentFinance
